import Mathlib

/-!
Verification development for the UVC camera-lister repository.

The repository is a small Electron/TypeScript utility around an external USB
library.  We shallowly embed its pure logic:

* the Device Lister Adapter (`camera-lister-wrapper.ts`): field normalisation,
  hex rendering, error-message rewriting, `findCamera`'s argument parsing,
  `getFormattedList` / `getCameraCount`, and the CLI entry point;
* the Label Correlator (`extractVendorProductFromLabel` in the renderer):
  a by-hand implementation of the JavaScript regular expression
  `(?:\(|\[|\b)([0-9a-fA-F]\x7b3,4\x7d)\s*[:x]\s*([0-9a-fA-F]\x7b3,4\x7d)(?:\)|\]|\b)`
  with leftmost search and greedy backtracking on the group lengths;
* the Merge Step (`mergeWithMediaDevices`);
* the renderer's `loadCameras` re-entrancy guard, as a two-event transition
  system.

JavaScript strings are modelled as Lean `String` / `List Char`; the character
classes (`\s`, `\w`, hex digits) are restricted to their ASCII meaning, which
covers every string the repository manipulates.  JavaScript numbers that hold
USB ids are modelled as `Nat`; `parseInt` results (which may be `NaN` or
negative) are modelled as `Option Int`, with `none` playing the role of `NaN`
(`NaN === x` is false for every `x`, matching `Option.none ≠ some x`).
-/

set_option maxRecDepth 8192

namespace Uvcc

/-- ASCII part of the JavaScript `\s` class (space, tab, LF, VT, FF, CR). -/
def jsWs (c : Char) : Bool :=
  c.toNat == 32 || c.toNat == 9 || c.toNat == 10 || c.toNat == 11 ||
    c.toNat == 12 || c.toNat == 13

/-- JavaScript `\w` class `[A-Za-z0-9_]`, used by the `\b` word-boundary
assertion. -/
def isWordChar (c : Char) : Bool :=
  (48 ≤ c.toNat && c.toNat ≤ 57) || (65 ≤ c.toNat && c.toNat ≤ 90) ||
    (97 ≤ c.toNat && c.toNat ≤ 122) || c.toNat == 95

/-- The regex class `[0-9a-fA-F]`. -/
def isHexDigit (c : Char) : Bool :=
  (48 ≤ c.toNat && c.toNat ≤ 57) || (97 ≤ c.toNat && c.toNat ≤ 102) ||
    (65 ≤ c.toNat && c.toNat ≤ 70)

/-- Lower-case hex digits `[0-9a-f]`: the alphabet of JavaScript's
`Number.prototype.toString(16)`. -/
def isLowerHexDigit (c : Char) : Bool :=
  (48 ≤ c.toNat && c.toNat ≤ 57) || (97 ≤ c.toNat && c.toNat ≤ 102)

/-- Numeric value of a hex digit, as `parseInt(-, 16)` assigns it. -/
def hexCharVal (c : Char) : Nat :=
  if c.toNat ≤ 57 then c.toNat - 48
  else if c.toNat ≤ 70 then c.toNat - 55
  else c.toNat - 87

/-- Value of a string of hex digits, most significant first. -/
def parseHexDigits (l : List Char) : Nat :=
  l.foldl (fun acc c => 16 * acc + hexCharVal c) 0

/-- The hex digit character for `n < 16` (lower case, as JavaScript's
`toString(16)` produces). -/
def hexDigitChar (n : Nat) : Char :=
  if n < 10 then Char.ofNat (48 + n) else Char.ofNat (87 + n)

/-- Fuel-driven core of `toString(16)`: digits of `n`, most significant first,
empty for `n = 0`.  The fuel argument only bounds recursion depth; `fuel = n`
is always enough. -/
def toHexAux : Nat → Nat → List Char
  | 0, _ => []
  | fuel + 1, n => if n = 0 then [] else toHexAux fuel (n / 16) ++ [hexDigitChar (n % 16)]

/-- `n.toString(16)` on a natural number, as a character list. -/
def natToHexChars (n : Nat) : List Char :=
  if n = 0 then ['0'] else toHexAux n n

/-- `n.toString(16)` on a natural number. -/
def natToHex (n : Nat) : String :=
  String.mk (natToHexChars n)

/-- `String.prototype.padStart(4, '0')`. -/
def padStart4 (l : List Char) : List Char :=
  List.replicate (4 - l.length) ('0') ++ l

/-- The adapter's hex renderer: `` `0x${n.toString(16).padStart(4, '0')}` ``
(camera-lister-wrapper.ts lines 90-91, and identically in the merge step). -/
def toHex (n : Nat) : String :=
  "0x" ++ String.mk (padStart4 (natToHexChars n))

/-- The correlator's dedup key `` `${v.toString(16)}:${p.toString(16)}` ``
(lower case, unpadded). -/
def pairKey (v p : Nat) : String :=
  natToHex v ++ ":" ++ natToHex p

/-! ## Data model

`CameraDevice` is the record shape produced by the adapter
(camera-lister-wrapper.ts lines 26-39) and by the merge step. -/

structure CameraDevice where
  name : String
  vendor : Nat
  product : Nat
  address : Nat
  vendorHex : String
  productHex : String
deriving DecidableEq, Repr

/-- A raw descriptor as returned by the external USB library's `get()`
(fields read by the adapter: `name`, `vendor`, `product`, `address`). -/
structure RawDevice where
  name : String
  vendor : Nat
  product : Nat
  address : Nat
deriving DecidableEq, Repr

/-- A thrown JavaScript value as far as the adapter's `catch` inspects it:
whether it is an `Error` instance, and its `message`. -/
structure JsError where
  isError : Bool
  message : String
deriving DecidableEq, Repr

/-- The success path of `listCameras`: `devices.map(device => ({...}))`
(camera-lister-wrapper.ts lines 85-92). -/
def mapDevices (devices : List RawDevice) : List CameraDevice :=
  devices.map fun device =>
    { name := device.name
      vendor := device.vendor
      product := device.product
      address := device.address
      vendorHex := toHex device.vendor
      productHex := toHex device.product }

/-- Message rewritten for `LIBUSB_ERROR_ACCESS`
(camera-lister-wrapper.ts lines 97-101; the source concatenates three
string literals, spaces included). -/
def accessDeniedMessage : String :=
  "Permission denied accessing USB devices. " ++
    "On Linux, you may need to run with sudo or configure udev rules. " ++
    "See USAGE.md for more information."

/-- Message rewritten for `LIBUSB_ERROR_NOT_FOUND`
(camera-lister-wrapper.ts lines 104-107). -/
def notFoundMessage : String :=
  "No UVC-compatible cameras found. " ++
    "Make sure your camera is connected and supports USB Video Class (UVC)."

def accessToken : String := "LIBUSB_ERROR_ACCESS"

def notFoundToken : String := "LIBUSB_ERROR_NOT_FOUND"

/-- The permission/elevation guidance phrase of the rewritten access-denied
message. -/
def elevationGuidance : String := "run with sudo or configure udev rules"

/-- The no-camera explanation phrase of the rewritten not-found message. -/
def noCameraExplanation : String := "No UVC-compatible cameras found"

/-- `String.prototype.includes`, i.e. contiguous-substring containment. -/
def includesSub (s pat : String) : Prop :=
  pat.data <:+: s.data

instance (s pat : String) : Decidable (includesSub s pat) := by
  unfold includesSub
  infer_instance

/-- The `catch` block of `listCameras` (camera-lister-wrapper.ts lines
93-110): rewrite the two recognised libusb failures, pass everything else
through unchanged. -/
def rewriteListError (e : JsError) : JsError :=
  if e.isError && decide (includesSub e.message accessToken) then
    { isError := true, message := accessDeniedMessage }
  else if e.isError && decide (includesSub e.message notFoundToken) then
    { isError := true, message := notFoundMessage }
  else e

/-- `listCameras`, with the external library's outcome as explicit input:
success maps the descriptors, failure is rewritten by the `catch` block. -/
def listCameras : Except JsError (List RawDevice) → Except JsError (List CameraDevice)
  | .ok devices => .ok (mapDevices devices)
  | .error e => .error (rewriteListError e)

/-- `getCameraCount` (camera-lister-wrapper.ts lines 126-129), applied to the
camera list obtained from a successful `listCameras`. -/
def getCameraCount (cameras : List CameraDevice) : Nat :=
  cameras.length

/-- Fuel-driven core of decimal rendering, as for `toHexAux`. -/
def toDecAux : Nat → Nat → List Char
  | 0, _ => []
  | fuel + 1, n => if n = 0 then [] else toDecAux fuel (n / 10) ++ [Char.ofNat (48 + n % 10)]

/-- Decimal rendering of a natural number, as JavaScript template literals
produce for the nonnegative integers handled here. -/
def natToDec (n : Nat) : String :=
  if n = 0 then "0" else String.mk (toDecAux n n)

/-- One block of `getFormattedList`'s per-camera template
(camera-lister-wrapper.ts line 185). -/
def formatCamera (camera : CameraDevice) (index : Nat) : String :=
  natToDec (index + 1) ++ ". " ++ camera.name ++
    "\n   Vendor: " ++ camera.vendorHex ++ " (" ++ natToDec camera.vendor ++
    ")\n   Product: " ++ camera.productHex ++ " (" ++ natToDec camera.product ++
    ")\n   Address: " ++ natToDec camera.address

/-- `getFormattedList` (camera-lister-wrapper.ts lines 176-189), applied to
the camera list obtained from a successful `listCameras`. -/
def getFormattedList (cameras : List CameraDevice) : String :=
  if cameras.length = 0 then "No UVC-compatible cameras found."
  else
    "Found " ++ natToDec cameras.length ++ " UVC-compatible camera(s):\n" ++
      String.intercalate "\n\n" (cameras.mapIdx fun index camera => formatCamera camera index)

/-- The CLI entry point (camera-lister-wrapper.ts lines 228-240): when run
directly it prints `getFormattedList()` and exits 0, or prints an error and
exits 1.  The argument vector is accepted but never read by the source —
there is no `--json` branch.  Result: (printed text, exit code). -/
def cliMain (argv : List String) (outcome : Except JsError (List RawDevice)) : String × Nat :=
  match argv, listCameras outcome with
  | _, .ok cameras => (getFormattedList cameras, 0)
  | _, .error e => ("Error listing cameras: " ++ e.message, 1)

/-- `String.prototype.replace` with a string pattern: replace the first
occurrence only. -/
def jsReplaceFirst (pat rep : List Char) : List Char → List Char
  | [] => if pat.isPrefixOf ([] : List Char) then rep else []
  | c :: rest =>
    if pat.isPrefixOf (c :: rest) then rep ++ (c :: rest).drop pat.length
    else c :: jsReplaceFirst pat rep rest

/-- `parseInt(s, 16)`: skip leading whitespace, optional sign, optional
`0x`/`0X`, then the longest run of hex digits; no digits means `NaN`,
modelled as `none`. -/
def jsParseInt16 (s : String) : Option Int :=
  match s.data.dropWhile jsWs with
  | [] => (jsParseInt16Digits []).map fun n => (n : Int)
  | c :: rest =>
    if c = '-' then (jsParseInt16Digits rest).map fun n => -(n : Int)
    else if c = '+' then (jsParseInt16Digits rest).map fun n => (n : Int)
    else (jsParseInt16Digits (c :: rest)).map fun n => (n : Int)
where
  jsParseInt16Digits (l : List Char) : Option Nat :=
    let l := if (['0', 'x']).isPrefixOf l || (['0', 'X']).isPrefixOf l then l.drop 2 else l
    let ds := l.takeWhile isHexDigit
    if ds.isEmpty then none else some (parseHexDigits ds)

/-- `findCamera`'s string normaliser:
`parseInt(arg.replace('0x', ''), 16)` (camera-lister-wrapper.ts lines
152-157). -/
def parseHexArg (s : String) : Option Int :=
  jsParseInt16 (String.mk (jsReplaceFirst (['0', 'x']) [] s.data))

/-- A `vendor`/`product` argument of `findCamera`: `number | string`. -/
inductive IdArg where
  | num (n : Nat)
  | str (s : String)
deriving DecidableEq, Repr

/-- The `typeof vendor === 'string' ? parseInt(...) : vendor` normalisation. -/
def normalizeId : IdArg → Option Int
  | .num n => some (n : Int)
  | .str s => parseHexArg s

/-- `findCamera` (camera-lister-wrapper.ts lines 148-162), applied to the
camera list obtained from a successful `listCameras`: first camera whose ids
strictly equal the normalised arguments, else the `null` sentinel. -/
def findCamera (cameras : List CameraDevice) (vendor product : IdArg) : Option CameraDevice :=
  cameras.find? fun camera =>
    normalizeId vendor == some ((camera.vendor : Int)) &&
      normalizeId product == some ((camera.product : Int))

/-! ## Label Correlator

A by-hand execution model of the JavaScript regular expression in
`extractVendorProductFromLabel`:

  `(?:\(|\[|\b)  ([0-9a-fA-F]\x7b3,4\x7d)  \s*[:x]\s*  ([0-9a-fA-F]\x7b3,4\x7d)  (?:\)|\]|\b)`

`String.prototype.match` scans start positions left to right; at a given
start, `\x7b3,4\x7d` is greedy (4 digits tried before 3, with backtracking).
`\s*` never needs backtracking here because no whitespace character can
satisfy the following `[:x]` or `[0-9a-fA-F]`. -/

/-- Whether position `i` of `l` holds a `\w` character. -/
def wordAt (l : List Char) (i : Nat) : Bool :=
  match l.get? i with
  | some c => isWordChar c
  | none => false

/-- The `\b` assertion between positions `i - 1` and `i` (positions outside
the string are non-word). -/
def boundary (l : List Char) : Nat → Bool
  | 0 => wordAt l 0
  | j + 1 => wordAt l j != wordAt l (j + 1)

/-- First position `≥ i` whose character is not `\s` (i.e. `\s*` consumed
greedily). -/
def skipWs (l : List Char) (i : Nat) : Nat :=
  i + ((l.drop i).takeWhile jsWs).length

/-- A capture group `[0-9a-fA-F]\x7bn\x7d` at position `i`: its `parseInt`
value if `n` hex digits are present, else `none`. -/
def hexGroup (l : List Char) (i n : Nat) : Option Nat :=
  let seg := (l.drop i).take n
  if seg.length = n && seg.all isHexDigit then some (parseHexDigits seg) else none

/-- The `[:x]` separator class at position `k`. -/
def sepAt (l : List Char) (k : Nat) : Bool :=
  match l.get? k with
  | some c => c == ':' || c == 'x'
  | none => false

/-- The closing `(?:\)|\]|\b)` at position `e`. -/
def closingAt (l : List Char) (e : Nat) : Bool :=
  (match l.get? e with
   | some c => c == ')' || c == ']'
   | none => false) || boundary l e

/-- Attempt the second group with length `n` at position `m` (`v` is the
first group's value), then the closing alternative. -/
def tryGroup2 (l : List Char) (m n v : Nat) : Option (Nat × Nat) :=
  match hexGroup l m n with
  | some p => if closingAt l (m + n) then some (v, p) else none
  | none => none

/-- Attempt the regex body (both groups and separator) with first-group
length `n` at position `j`. -/
def tryBody (l : List Char) (j n : Nat) : Option (Nat × Nat) :=
  match hexGroup l j n with
  | some v =>
    let k := skipWs l (j + n)
    if sepAt l k then
      let m := skipWs l (k + 1)
      (tryGroup2 l m 4 v).orElse fun _ => tryGroup2 l m 3 v
    else none
  | none => none

/-- The regex body at position `j`, greedy in the first group. -/
def body (l : List Char) (j : Nat) : Option (Nat × Nat) :=
  (tryBody l j 4).orElse fun _ => tryBody l j 3

/-- A match attempt anchored at start position `i`: the opening `(?:\(|\[|\b)`
either consumes a parenthesis/bracket or asserts a word boundary.  (When the
character at `i` is `(` or `[` and the body fails after it, the residual `\b`
alternative also fails, because `(`/`[` is not a hex digit; the `orElse`
covers that case exactly.) -/
def matchAt (l : List Char) (i : Nat) : Option (Nat × Nat) :=
  (match l.get? i with
   | some c => if c == '(' || c == '[' then body l (i + 1) else none
   | none => none).orElse
    fun _ => if boundary l i then body l i else none

/-- Leftmost match over all start positions. -/
def extractVendorProduct (l : List Char) : Option (Nat × Nat) :=
  (List.range (l.length + 1)).findSome? (matchAt l)

/-- `extractVendorProductFromLabel` (renderer.js lines 242-250, identical in
the part_001 variant): the leftmost regex match parsed as base-16 integers.
The source's `Number.isNaN` re-check is vacuous — the captured groups are
3-4 hex digits, which `parseInt(-, 16)` always parses — so the model returns
the pair directly; the separately stored `pairKey` field is recomputed by
`pairKey` at use sites, matching its formula in the source. -/
def extractVendorProductFromLabel (label : String) : Option (Nat × Nat) :=
  extractVendorProduct label.data

/-! ### Specification-side pattern predicates

`plainPairAt`/`hasPlainHexPair` transcribe the specification's sentence as
written: "a substring of two 3-4 digit hexadecimal groups separated by `:`
or `x`, optionally enclosed in parentheses or brackets" — with no boundary
requirement for a bare occurrence.  `OccursAt` states the amended rule: the
occurrence must open with `(`, `[` or a word boundary and close with `)`,
`]` or a word boundary, with optional whitespace around the separator. -/

/-- Two hex groups of lengths `l1`, `l2` separated by one `[:x]` character,
starting at position `i` — the spec sentence taken literally. -/
def plainPairAt (l : List Char) (i l1 l2 : Nat) : Bool :=
  (hexGroup l i l1).isSome && sepAt l (i + l1) && (hexGroup l (i + l1 + 1) l2).isSome

/-- Some position of `l` carries a plain (unbounded) hex pair. -/
def hasPlainHexPair (l : List Char) : Bool :=
  (List.range (l.length + 1)).any fun i =>
    (([3, 4] : List Nat)).any fun l1 =>
      (([3, 4] : List Nat)).any fun l2 => plainPairAt l i l1 l2

/-- `n` consecutive characters starting at position `j`, all satisfying `p`. -/
def runAt (l : List Char) (j n : Nat) (p : Char → Bool) : Prop :=
  ((l.drop j).take n).length = n ∧ ((l.drop j).take n).all p = true

/-- The regex body occurs at position `j` with group values `v` and `p`:
3-4 hex digits (value `v`), optional whitespace, `:` or `x`, optional
whitespace, 3-4 hex digits (value `p`), then `)`/`]`/word boundary. -/
def BodyValAt (l : List Char) (j v p : Nat) : Prop :=
  ∃ l1 w1 w2 l2 : Nat,
    (l1 = 3 ∨ l1 = 4) ∧ (l2 = 3 ∨ l2 = 4) ∧
    runAt l j l1 isHexDigit ∧ v = parseHexDigits ((l.drop j).take l1) ∧
    runAt l (j + l1) w1 jsWs ∧
    sepAt l (j + l1 + w1) = true ∧
    runAt l (j + l1 + w1 + 1) w2 jsWs ∧
    runAt l (j + l1 + w1 + 1 + w2) l2 isHexDigit ∧
    p = parseHexDigits ((l.drop (j + l1 + w1 + 1 + w2)).take l2) ∧
    closingAt l (j + l1 + w1 + 1 + w2 + l2) = true

/-- The full pattern occurs anchored at start position `i` with group values
`v` and `p`: the opening consumes `(`/`[` or asserts a word boundary. -/
def OccursValAt (l : List Char) (i v p : Nat) : Prop :=
  (∃ c, l.get? i = some c ∧ (c = '(' ∨ c = '[') ∧ BodyValAt l (i + 1) v p) ∨
    (boundary l i = true ∧ BodyValAt l i v p)

/-- The full pattern occurs anchored at position `i`, for some group values. -/
def OccursAt (l : List Char) (i : Nat) : Prop :=
  ∃ v p, OccursValAt l i v p

/-! ## Merge Step (`mergeWithMediaDevices`, part_001 lines 110-156)

The embedding follows the variant that the specification describes, with the
lower-cased-name dedup set; `src/app/renderer/renderer.js` carries a reduced
variant without the name set (see the theorems about C1/C2 for which variant
they speak about).  The OS-native input is modelled as the list of raw
`label` strings of the `videoinput` devices, in enumeration order. -/

/-- `String.prototype.toLowerCase` (ASCII model). -/
def jsToLower (s : String) : String :=
  String.mk (s.data.map Char.toLower)

/-- `String.prototype.trim` (ASCII model). -/
def jsTrim (s : String) : String :=
  String.mk (((s.data.dropWhile jsWs).reverse.dropWhile jsWs).reverse)

/-- `(v.label || 'Unknown Camera').trim()`. -/
def normLabel (raw : String) : String :=
  jsTrim (if raw = "" then "Unknown Camera" else raw)

/-- The CameraDevice pushed for an accepted OS-native label
(part_001 lines 139-148). -/
def synthCamera (label : String) (parsed : Option (Nat × Nat)) : CameraDevice :=
  let vendor := match parsed with | some vp => vp.1 | none => 0
  let product := match parsed with | some vp => vp.2 | none => 0
  { name := label
    vendor := vendor
    product := product
    address := 0
    vendorHex := toHex vendor
    productHex := toHex product }

/-- The loop state of the merge: the `this.cameras` array and the two
dedup sets (JavaScript `Set`s of strings, modelled as duplicate-free lists
consulted via `contains`). -/
structure MergeState where
  cameras : List CameraDevice
  existingNames : List String
  existingIdPairs : List String
deriving Repr

/-- One iteration of the `for (const v of videoInputs)` loop. -/
def mergeStep (st : MergeState) (raw : String) : MergeState :=
  let label := normLabel raw
  let key := jsToLower label
  let parsed := extractVendorProductFromLabel label
  if st.existingNames.contains key then st
  else if (match parsed with
           | some vp => st.existingIdPairs.contains (pairKey vp.1 vp.2)
           | none => false) then st
  else
    { cameras := st.cameras ++ [synthCamera label parsed]
      existingNames := st.existingNames ++ [key]
      existingIdPairs :=
        match parsed with
        | some vp => st.existingIdPairs ++ [pairKey vp.1 vp.2]
        | none => st.existingIdPairs }

/-- `existingNames` as first built from the authoritative list
(part_001 lines 116-118). -/
def initNames (A : List CameraDevice) : List String :=
  A.map fun c => jsToLower c.name

/-- `existingIdPairs` as first built from the authoritative list
(part_001 lines 119-123): keys of the entries whose ids are both nonzero. -/
def initPairs (A : List CameraDevice) : List String :=
  (A.filter fun c => c.vendor != 0 && c.product != 0).map fun c => pairKey c.vendor c.product

/-- `mergeWithMediaDevices`: run the loop over the OS-native labels starting
from the authoritative list `A`. -/
def mergeWithMediaDevices (A : List CameraDevice) (B : List String) : List CameraDevice :=
  (B.foldl mergeStep
    { cameras := A, existingNames := initNames A, existingIdPairs := initPairs A }).cameras

/-- The specification's own wording of the merge pass (spec §4.3 step 3):
the list of entries accepted from the OS-native labels, given the name set
and pair-key set, registering each accepted entry's name and key. -/
def acceptedEntries (names pairs : List String) : List String → List CameraDevice
  | [] => []
  | raw :: rest =>
    let label := normLabel raw
    let key := jsToLower label
    if names.contains key then acceptedEntries names pairs rest
    else
      match extractVendorProductFromLabel label with
      | some vp =>
        if pairs.contains (pairKey vp.1 vp.2) then acceptedEntries names pairs rest
        else
          synthCamera label (some vp) ::
            acceptedEntries (names ++ [key]) (pairs ++ [pairKey vp.1 vp.2]) rest
      | none => synthCamera label none :: acceptedEntries (names ++ [key]) pairs rest

/-- The merge as the specification words it: all of `A` first, then the
accepted OS-native entries in source order. -/
def mergeSpec (A : List CameraDevice) (B : List String) : List CameraDevice :=
  A ++ acceptedEntries (initNames A) (initPairs A) B

/-- Two entries "share both the same lower-cased name and the same nonzero
vendor:product pair" (the de-duplication invariant's forbidden relation). -/
def SharesNameAndPair (a b : CameraDevice) : Prop :=
  jsToLower a.name = jsToLower b.name ∧ a.vendor = b.vendor ∧ a.product = b.product ∧
    a.vendor ≠ 0 ∧ a.product ≠ 0

instance (a b : CameraDevice) : Decidable (SharesNameAndPair a b) := by
  unfold SharesNameAndPair
  infer_instance

/-- The de-duplication invariant of spec §3 for a camera list. -/
def DedupInvariant (cameras : List CameraDevice) : Prop :=
  cameras.Pairwise fun a b => ¬ SharesNameAndPair a b

instance (cameras : List CameraDevice) : Decidable (DedupInvariant cameras) := by
  unfold DedupInvariant
  infer_instance

/-! ## Presentation-shell refresh guard (`loadCameras`)

`loadCameras` (renderer.js lines 48-75) begins with `if (this.isLoading)
return;`, then sets `isLoading = true`, issues the one discovery call, and
resets the flag in `finally`.  The renderer is single-threaded: the guard
check and the flag write happen atomically before the first `await`.  We
model the flag together with a count of outstanding discovery calls, under
the two events that touch them: a refresh request and the completion
(success or failure) of the in-flight call. -/

inductive UIEvent where
  | request
  | complete
deriving DecidableEq, Repr

structure UIState where
  isLoading : Bool
  outstanding : Nat
deriving DecidableEq, Repr

/-- Effect of one event on the guard state: a request while loading is the
`if (this.isLoading) return;` no-op; otherwise it sets the flag and issues
one discovery call.  Completion of the in-flight call runs the `finally`. -/
def uiStep (s : UIState) : UIEvent → UIState
  | .request => if s.isLoading then s else { isLoading := true, outstanding := s.outstanding + 1 }
  | .complete =>
    if s.outstanding = 0 then s
    else { isLoading := false, outstanding := s.outstanding - 1 }

/-- The guard state reached from startup (`isLoading = false`, nothing in
flight) by a sequence of events. -/
def runUI (events : List UIEvent) : UIState :=
  events.foldl uiStep { isLoading := false, outstanding := 0 }

/-! ## Helper lemmas: hex rendering and parsing -/

theorem parseHexDigits_append (l : List Char) (c : Char) :
    parseHexDigits (l ++ [c]) = 16 * parseHexDigits l + hexCharVal c := by
  simp [parseHexDigits, List.foldl_append]

theorem hexCharVal_hexDigitChar : ∀ d : Nat, d < 16 → hexCharVal (hexDigitChar d) = d := by
  decide

theorem toHexAux_parse : ∀ fuel n : Nat, n ≤ fuel → parseHexDigits (toHexAux fuel n) = n := by
  intro fuel
  induction fuel with
  | zero =>
    intro n h
    have hn : n = 0 := Nat.le_zero.mp h
    simp [hn, toHexAux, parseHexDigits]
  | succ fuel ih =>
    intro n h
    by_cases hn : n = 0
    · simp [hn, toHexAux, parseHexDigits]
    · have hdiv : n / 16 < n := Nat.div_lt_self (Nat.pos_of_ne_zero hn) (by norm_num)
      have hrec : parseHexDigits (toHexAux fuel (n / 16)) = n / 16 := ih (n / 16) (by omega)
      have hmod : hexCharVal (hexDigitChar (n % 16)) = n % 16 :=
        hexCharVal_hexDigitChar (n % 16) (Nat.mod_lt _ (by norm_num))
      calc parseHexDigits (toHexAux (fuel + 1) n)
          = parseHexDigits (toHexAux fuel (n / 16) ++ [hexDigitChar (n % 16)]) := by
            simp [toHexAux, hn]
        _ = 16 * (n / 16) + (n % 16) := by rw [parseHexDigits_append, hrec, hmod]
        _ = n := by omega

theorem parseHexDigits_natToHexChars (n : Nat) : parseHexDigits (natToHexChars n) = n := by
  by_cases hn : n = 0
  · simp [hn, natToHexChars, parseHexDigits, hexCharVal]
  · simp only [natToHexChars, hn, if_false]
    exact toHexAux_parse n n le_rfl

theorem parseHexDigits_replicate_zero (k : Nat) (l : List Char) :
    parseHexDigits (List.replicate k ('0') ++ l) = parseHexDigits l := by
  induction k with
  | zero => simp
  | succ k ih =>
    have h0 : hexCharVal '0' = 0 := by decide
    simpa [List.replicate_succ, parseHexDigits, h0] using ih

theorem parseHexDigits_padStart4 (l : List Char) :
    parseHexDigits (padStart4 l) = parseHexDigits l :=
  parseHexDigits_replicate_zero _ l

theorem isLowerHexDigit_hexDigitChar :
    ∀ d : Nat, d < 16 → isLowerHexDigit (hexDigitChar d) = true := by
  decide

theorem toHexAux_all_lower : ∀ fuel n : Nat, (toHexAux fuel n).all isLowerHexDigit = true := by
  intro fuel
  induction fuel with
  | zero => intro n; simp [toHexAux]
  | succ fuel ih =>
    intro n
    by_cases hn : n = 0
    · simp [toHexAux, hn]
    · have h := isLowerHexDigit_hexDigitChar (n % 16) (Nat.mod_lt _ (by norm_num))
      simp [toHexAux, hn, List.all_append, ih (n / 16), h]

theorem natToHexChars_all_lower (n : Nat) : (natToHexChars n).all isLowerHexDigit = true := by
  by_cases hn : n = 0
  · simp [natToHexChars, hn]; decide
  · simp only [natToHexChars, hn, if_false]
    exact toHexAux_all_lower n n

theorem isLowerHexDigit_isHexDigit {c : Char} (h : isLowerHexDigit c = true) :
    isHexDigit c = true := by
  simp [isLowerHexDigit] at h
  simp [isHexDigit]
  omega

theorem natToHexChars_all_hex (n : Nat) : (natToHexChars n).all isHexDigit = true := by
  have h := natToHexChars_all_lower n
  simp only [List.all_eq_true] at h ⊢
  exact fun c hc => isLowerHexDigit_isHexDigit (h c hc)

theorem padStart4_all_hex {l : List Char} (h : l.all isHexDigit = true) :
    (padStart4 l).all isHexDigit = true := by
  simp only [padStart4, List.all_append, Bool.and_eq_true]
  refine ⟨?_, h⟩
  simp [List.all_eq_true]
  exact Or.inr (by decide)

theorem padStart4_length_ge (l : List Char) : 4 ≤ (padStart4 l).length := by
  simp [padStart4]
  omega

theorem hexDigit_not_ws {c : Char} (h : isHexDigit c = true) : jsWs c = false := by
  simp [isHexDigit] at h
  simp [jsWs]
  omega

theorem hexDigit_ne_minus {c : Char} (h : isHexDigit c = true) : ¬ c = '-' := by
  intro hc
  subst hc
  revert h
  decide

theorem hexDigit_ne_plus {c : Char} (h : isHexDigit c = true) : ¬ c = '+' := by
  intro hc
  subst hc
  revert h
  decide

theorem takeWhile_of_all {p : Char → Bool} :
    ∀ l : List Char, l.all p = true → l.takeWhile p = l := by
  intro l
  induction l with
  | nil => intro _; rfl
  | cons a as ih =>
    intro h
    simp only [List.all_cons, Bool.and_eq_true] at h
    simp [List.takeWhile_cons, h.1, ih h.2]

theorem dropWhile_ws_of_all_hex {l : List Char} (h : l.all isHexDigit = true) :
    l.dropWhile jsWs = l := by
  cases l with
  | nil => rfl
  | cons a as =>
    simp only [List.all_cons, Bool.and_eq_true] at h
    simp [List.dropWhile_cons, hexDigit_not_ws h.1]

theorem not_prefix_0x {l : List Char} (h : l.all isHexDigit = true) :
    (['0', 'x']).isPrefixOf l = false ∧ (['0', 'X']).isPrefixOf l = false := by
  cases l with
  | nil => exact ⟨rfl, rfl⟩
  | cons a as =>
    cases as with
    | nil => simp [List.isPrefixOf]
    | cons b bs =>
      simp only [List.all_cons, Bool.and_eq_true] at h
      have hb := h.2.1
      simp only [isHexDigit, Bool.or_eq_true, Bool.and_eq_true, decide_eq_true_eq,
        Nat.le_iff_lt_or_eq, beq_iff_eq] at hb
      constructor <;>
        · simp [List.isPrefixOf]
          intro h0 hx
          exfalso
          have : b.toNat = 120 ∨ b.toNat = 88 := by
            rw [← hx]
            first
              | exact Or.inl rfl
              | exact Or.inr rfl
          omega

theorem jsReplaceFirst_0x (l : List Char) :
    jsReplaceFirst (['0', 'x']) [] ('0' :: 'x' :: l) = l := by
  rw [jsReplaceFirst]
  simp [List.isPrefixOf]

theorem jsParseInt16_all_hex {l : List Char} (h : l.all isHexDigit = true) (hne : l ≠ []) :
    jsParseInt16 (String.mk l) = some ((parseHexDigits l : Int)) := by
  obtain ⟨c, cs, rfl⟩ := List.exists_cons_of_ne_nil hne
  have hc : isHexDigit c = true := by
    simp only [List.all_cons, Bool.and_eq_true] at h
    exact h.1
  unfold jsParseInt16
  rw [show (String.mk (c :: cs)).data = c :: cs from rfl, dropWhile_ws_of_all_hex h]
  simp only [hexDigit_ne_minus hc, if_false, hexDigit_ne_plus hc]
  unfold jsParseInt16.jsParseInt16Digits
  obtain ⟨h1, h2⟩ := not_prefix_0x h
  simp [h1, h2, takeWhile_of_all _ h]

theorem includesSub_trans {a b c : String} (h1 : includesSub a b) (h2 : includesSub b c) :
    includesSub a c :=
  List.IsInfix.trans h2 h1

theorem foldl_mergeStep_cameras :
    ∀ (B : List String) (cams : List CameraDevice) (names pairs : List String),
      (B.foldl mergeStep ⟨cams, names, pairs⟩).cameras =
        cams ++ acceptedEntries names pairs B := by
  intro B
  induction B with
  | nil => intro cams names pairs; simp [acceptedEntries]
  | cons raw rest ih =>
    intro cams names pairs
    rw [List.foldl_cons, acceptedEntries]
    by_cases h1 : names.contains (jsToLower (normLabel raw))
    · simp only [mergeStep, h1, if_true]
      simp [ih, h1]
    · cases hp : extractVendorProductFromLabel (normLabel raw) with
      | none =>
        simp only [mergeStep, h1, if_false, hp]
        simp [ih, h1, List.append_assoc]
      | some vp =>
        by_cases h2 : pairs.contains (pairKey vp.1 vp.2)
        · simp only [mergeStep, h1, if_false, hp, h2, if_true]
          simp [ih, h1, h2]
        · simp only [mergeStep, h1, if_false, hp, h2]
          simp [ih, h1, h2, List.append_assoc]

theorem foldl_mergeStep_dedup :
    ∀ (B : List String) (st : MergeState),
      st.cameras.Pairwise (fun a b => ¬ SharesNameAndPair a b) →
      (∀ c ∈ st.cameras, jsToLower c.name ∈ st.existingNames) →
      (B.foldl mergeStep st).cameras.Pairwise (fun a b => ¬ SharesNameAndPair a b) ∧
        ∀ c ∈ (B.foldl mergeStep st).cameras,
          jsToLower c.name ∈ (B.foldl mergeStep st).existingNames := by
  intro B
  induction B with
  | nil => intro st h1 h2; exact ⟨h1, h2⟩
  | cons raw rest ih =>
    intro st h1 h2
    rw [List.foldl_cons]
    by_cases hn : jsToLower (normLabel raw) ∈ st.existingNames
    · have hstep : mergeStep st raw = st := by simp [mergeStep, hn]
      rw [hstep]
      exact ih st h1 h2
    · cases hp : extractVendorProductFromLabel (normLabel raw) with
      | some vp =>
        by_cases hpair : pairKey vp.1 vp.2 ∈ st.existingIdPairs
        · have hstep : mergeStep st raw = st := by
            simp [mergeStep, hn, hp, hpair]
          rw [hstep]
          exact ih st h1 h2
        · have hstep : mergeStep st raw =
              { cameras := st.cameras ++ [synthCamera (normLabel raw) (some vp)]
                existingNames := st.existingNames ++ [jsToLower (normLabel raw)]
                existingIdPairs := st.existingIdPairs ++ [pairKey vp.1 vp.2] } := by
            simp [mergeStep, hn, hp, hpair]
          rw [hstep]
          apply ih
          · rw [List.pairwise_append]
            refine ⟨h1, List.pairwise_singleton _ _, fun a ha b hb hs => ?_⟩
            rw [List.mem_singleton] at hb
            subst hb
            exact hn (hs.1 ▸ h2 a ha)
          · intro c hc
            rcases List.mem_append.mp hc with hc | hc
            · exact List.mem_append_left _ (h2 c hc)
            · rw [List.mem_singleton] at hc
              subst hc
              simp [synthCamera]
      | none =>
        have hstep : mergeStep st raw =
            { cameras := st.cameras ++ [synthCamera (normLabel raw) none]
              existingNames := st.existingNames ++ [jsToLower (normLabel raw)]
              existingIdPairs := st.existingIdPairs } := by
          simp [mergeStep, hn, hp]
        rw [hstep]
        apply ih
        · rw [List.pairwise_append]
          refine ⟨h1, List.pairwise_singleton _ _, fun a ha b hb hs => ?_⟩
          rw [List.mem_singleton] at hb
          subst hb
          exact hn (hs.1 ▸ h2 a ha)
        · intro c hc
          rcases List.mem_append.mp hc with hc | hc
          · exact List.mem_append_left _ (h2 c hc)
          · rw [List.mem_singleton] at hc
            subst hc
            simp [synthCamera]

theorem toHexAux_length_le :
    ∀ fuel n k : Nat, n ≤ fuel → n < 16 ^ k → (toHexAux fuel n).length ≤ k := by
  intro fuel
  induction fuel with
  | zero =>
    intro n k h _
    have hn : n = 0 := by omega
    simp [hn, toHexAux]
  | succ fuel ih =>
    intro n k hle hlt
    by_cases hn : n = 0
    · simp [toHexAux, hn]
    · cases k with
      | zero => simp at hlt; omega
      | succ k =>
        have hdiv : n / 16 < 16 ^ k := by
          rw [Nat.div_lt_iff_lt_mul (by norm_num : (0 : Nat) < 16)]
          calc n < 16 ^ (k + 1) := hlt
            _ = 16 ^ k * 16 := by ring
        have hdlt : n / 16 < n := Nat.div_lt_self (Nat.pos_of_ne_zero hn) (by norm_num)
        have hlen := ih (n / 16) k (by omega) hdiv
        simp [toHexAux, hn, List.length_append]
        omega

theorem natToHexChars_length_le4 {n : Nat} (h : n < 65536) : (natToHexChars n).length ≤ 4 := by
  by_cases hn : n = 0
  · simp [natToHexChars, hn]
  · simp only [natToHexChars, hn, if_false]
    exact toHexAux_length_le n n 4 le_rfl (by norm_num at h ⊢; omega)

theorem padStart4_length_eq {l : List Char} (h : l.length ≤ 4) : (padStart4 l).length = 4 := by
  simp [padStart4]
  omega

theorem padStart4_all_lower {l : List Char} (h : l.all isLowerHexDigit = true) :
    (padStart4 l).all isLowerHexDigit = true := by
  simp only [padStart4, List.all_append, Bool.and_eq_true]
  refine ⟨?_, h⟩
  simp [List.all_eq_true]
  exact Or.inr (by decide)

theorem synthCamera_consistent (label : String) (parsed : Option (Nat × Nat)) :
    (synthCamera label parsed).vendorHex = toHex (synthCamera label parsed).vendor ∧
      (synthCamera label parsed).productHex = toHex (synthCamera label parsed).product := by
  cases parsed <;> exact ⟨rfl, rfl⟩

theorem mem_acceptedEntries :
    ∀ (B : List String) (names pairs : List String) (c : CameraDevice),
      c ∈ acceptedEntries names pairs B →
      ∃ label parsed, c = synthCamera label parsed := by
  intro B
  induction B with
  | nil => intro names pairs c hc; simp [acceptedEntries] at hc
  | cons raw rest ih =>
    intro names pairs c hc
    rw [acceptedEntries] at hc
    split at hc
    · exact ih _ _ _ hc
    · split at hc
      · rename_i vp _
        split at hc
        · exact ih _ _ _ hc
        · rcases List.mem_cons.mp hc with hc | hc
          · exact ⟨_, _, hc⟩
          · exact ih _ _ _ hc
      · rcases List.mem_cons.mp hc with hc | hc
        · exact ⟨_, _, hc⟩
        · exact ih _ _ _ hc

/-! ### Correlator matcher lemmas -/

theorem takeWhile_len_spec (p : Char → Bool) :
    ∀ m : List Char,
      (m.take ((m.takeWhile p).length)).length = (m.takeWhile p).length ∧
      (m.take ((m.takeWhile p).length)).all p = true ∧
      (∀ c, m.get? ((m.takeWhile p).length) = some c → p c = false) := by
  intro m
  induction m with
  | nil => exact ⟨rfl, rfl, fun c h => by cases h⟩
  | cons a as ih =>
    obtain ⟨ih1, ih2, ih3⟩ := ih
    cases hp : p a with
    | true =>
      refine ⟨?_, ?_, ?_⟩
      · simp [List.takeWhile_cons, hp, ih1]
      · simp [List.takeWhile_cons, hp, ih2]
      · intro c hc
        refine ih3 c ?_
        simpa [List.takeWhile_cons, hp] using hc
    | false =>
      refine ⟨by simp [List.takeWhile_cons, hp], by simp [List.takeWhile_cons, hp], ?_⟩
      intro c hc
      simp [List.takeWhile_cons, hp] at hc
      rw [← hc]
      exact hp

theorem takeWhile_len_unique (p : Char → Bool) :
    ∀ (m : List Char) (w : Nat),
      (m.take w).length = w → (m.take w).all p = true →
      (∀ c, m.get? w = some c → p c = false) →
      (m.takeWhile p).length = w := by
  intro m
  induction m with
  | nil =>
    intro w h1 _ _
    simpa using h1
  | cons a as ih =>
    intro w h1 h2 h3
    cases w with
    | zero =>
      have := h3 a rfl
      simp [List.takeWhile_cons, this]
    | succ w =>
      simp only [List.take_succ_cons, List.length_cons, Nat.add_left_inj] at h1
      simp only [List.take_succ_cons, List.all_cons, Bool.and_eq_true] at h2
      simp [List.takeWhile_cons, h2.1]
      exact ih w h1 h2.2 fun c hc => h3 c (by simpa using hc)

theorem get?_drop_eq (l : List Char) (a j : Nat) : (l.drop a).get? j = l.get? (a + j) := by
  simp [List.get?_eq_getElem?, List.getElem?_drop]

theorem skipWs_spec (l : List Char) (a : Nat) :
    runAt l a (skipWs l a - a) jsWs ∧
      ∀ c, l.get? (skipWs l a) = some c → jsWs c = false := by
  have h := takeWhile_len_spec jsWs (l.drop a)
  unfold skipWs runAt
  have hsub : a + ((l.drop a).takeWhile jsWs).length - a = ((l.drop a).takeWhile jsWs).length := by
    omega
  rw [hsub]
  refine ⟨⟨h.1, h.2.1⟩, fun c hc => h.2.2 c ?_⟩
  rw [get?_drop_eq]
  exact hc

theorem skipWs_eq {l : List Char} {a w : Nat} (hrun : runAt l a w jsWs)
    (hstop : ∃ c, l.get? (a + w) = some c ∧ jsWs c = false) :
    skipWs l a = a + w := by
  unfold skipWs
  have : ((l.drop a).takeWhile jsWs).length = w := by
    refine takeWhile_len_unique jsWs (l.drop a) w hrun.1 hrun.2 fun c hc => ?_
    obtain ⟨c', hc', hw'⟩ := hstop
    rw [get?_drop_eq, hc'] at hc
    cases hc
    exact hw'
  rw [this]

theorem runAt_le_length {l : List Char} {j n : Nat} {p : Char → Bool} (h : runAt l j n p)
    (hn : 0 < n) : j + n ≤ l.length := by
  have h1 := h.1
  rw [List.length_take] at h1
  have h2 : n ≤ (l.drop j).length := by
    rw [Nat.min_def] at h1
    split at h1 <;> omega
  have h3 : (l.drop j).length = l.length - j := List.length_drop _ _
  by_cases hj : j ≤ l.length
  · omega
  · exfalso
    omega

theorem runAt_head {l : List Char} {j n : Nat} {p : Char → Bool}
    (h : runAt l j n p) (hn : 0 < n) : ∃ c, l.get? j = some c ∧ p c = true := by
  obtain ⟨hlen, hall⟩ := h
  rcases hseg : (l.drop j).take n with _ | ⟨c, cs⟩
  · rw [hseg] at hlen; simp at hlen; omega
  · rw [hseg] at hall
    simp only [List.all_cons, Bool.and_eq_true] at hall
    refine ⟨c, ?_, hall.1⟩
    have h2 : ((l.drop j).take n).get? 0 = (l.drop j).get? 0 := by
      simp [List.get?_eq_getElem?, List.getElem?_take, hn]
    rw [hseg] at h2
    have h3 : (l.drop j).get? 0 = l.get? j := by rw [get?_drop_eq, Nat.add_zero]
    rw [← h3, ← h2]
    rfl

theorem sepAt_char {l : List Char} {k : Nat} (h : sepAt l k = true) :
    ∃ c, l.get? k = some c ∧ (c = ':' ∨ c = 'x') := by
  unfold sepAt at h
  cases hg : l.get? k with
  | none => rw [hg] at h; cases h
  | some c =>
    rw [hg] at h
    simp at h
    exact ⟨c, rfl, h⟩

theorem sepAt_not_ws {l : List Char} {k : Nat} (h : sepAt l k = true) :
    ∃ c, l.get? k = some c ∧ jsWs c = false := by
  obtain ⟨c, hc, hor⟩ := sepAt_char h
  refine ⟨c, hc, ?_⟩
  rcases hor with h | h <;> subst h <;> decide

theorem hexGroup_eq_some {l : List Char} {i n v : Nat} (h : hexGroup l i n = some v) :
    runAt l i n isHexDigit ∧ v = parseHexDigits ((l.drop i).take n) := by
  simp only [hexGroup] at h
  split at h
  · rename_i hcond
    simp only [Bool.and_eq_true, decide_eq_true_eq] at hcond
    cases h
    exact ⟨⟨hcond.1, hcond.2⟩, rfl⟩
  · cases h

theorem hexGroup_of_runAt {l : List Char} {i n : Nat} (h : runAt l i n isHexDigit) :
    hexGroup l i n = some (parseHexDigits ((l.drop i).take n)) := by
  simp only [hexGroup]
  rw [if_pos]
  simp [h.1, h.2]

theorem skipWs_ge (l : List Char) (a : Nat) : a ≤ skipWs l a := by
  unfold skipWs
  omega

theorem tryGroup2_eq_some {l : List Char} {m n v v' p : Nat}
    (h : tryGroup2 l m n v = some (v', p)) :
    v' = v ∧ runAt l m n isHexDigit ∧ p = parseHexDigits ((l.drop m).take n) ∧
      closingAt l (m + n) = true := by
  unfold tryGroup2 at h
  cases hg : hexGroup l m n with
  | none => rw [hg] at h; cases h
  | some q =>
    obtain ⟨hrun, hq⟩ := hexGroup_eq_some hg
    simp only [hg] at h
    split at h
    · rename_i hclose
      simp only [Option.some.injEq, Prod.mk.injEq] at h
      refine ⟨h.1.symm, hrun, ?_, hclose⟩
      rw [← h.2]
      exact hq
    · cases h

theorem tryGroup2_of_runAt {l : List Char} {m n : Nat} (v : Nat)
    (hrun : runAt l m n isHexDigit) (hclose : closingAt l (m + n) = true) :
    tryGroup2 l m n v = some (v, parseHexDigits ((l.drop m).take n)) := by
  unfold tryGroup2
  simp only [hexGroup_of_runAt hrun, hclose, if_true]

theorem orElse_isSome (a : Option (Nat × Nat)) (f : Unit → Option (Nat × Nat)) :
    (a.orElse f).isSome = (a.isSome || (f ()).isSome) := by
  cases a <;> simp [Option.orElse]

theorem tryBody_eq_some {l : List Char} {j n v p : Nat} (h : tryBody l j n = some (v, p)) :
    ∃ w1 w2 l2, (l2 = 3 ∨ l2 = 4) ∧
      runAt l j n isHexDigit ∧ v = parseHexDigits ((l.drop j).take n) ∧
      runAt l (j + n) w1 jsWs ∧ sepAt l (j + n + w1) = true ∧
      runAt l (j + n + w1 + 1) w2 jsWs ∧
      runAt l (j + n + w1 + 1 + w2) l2 isHexDigit ∧
      p = parseHexDigits ((l.drop (j + n + w1 + 1 + w2)).take l2) ∧
      closingAt l (j + n + w1 + 1 + w2 + l2) = true := by
  unfold tryBody at h
  cases hg : hexGroup l j n with
  | none => rw [hg] at h; cases h
  | some v0 =>
    obtain ⟨hrun1, hv0⟩ := hexGroup_eq_some hg
    simp only [hg] at h
    split at h
    · rename_i hsep
      rw [Option.orElse_eq_some'] at h
      have hksp := (skipWs_spec l (j + n)).1
      have hkge := skipWs_ge l (j + n)
      have hmsp := (skipWs_spec l (skipWs l (j + n) + 1)).1
      have hmge := skipWs_ge l (skipWs l (j + n) + 1)
      set k := skipWs l (j + n) with hk
      set m := skipWs l (k + 1) with hm
      set w1 := k - (j + n) with hw1def
      set w2 := m - (k + 1) with hw2def
      have hkeq : j + n + w1 = k := by omega
      have hmeq : j + n + w1 + 1 + w2 = m := by omega
      have hsep' : sepAt l (j + n + w1) = true := by rw [hkeq]; exact hsep
      have hw2' : runAt l (j + n + w1 + 1) w2 jsWs := by
        rw [show j + n + w1 + 1 = k + 1 by omega]
        exact hmsp
      rcases h with h | ⟨_, h⟩
      · obtain ⟨hveq, hrun2, hpeq, hclose⟩ := tryGroup2_eq_some h
        refine ⟨w1, w2, 4, Or.inr rfl, hrun1, by rw [hveq, hv0], hksp, hsep', hw2', ?_, ?_, ?_⟩
        · rw [hmeq]; exact hrun2
        · rw [hmeq]; exact hpeq
        · rw [hmeq]; exact hclose
      · obtain ⟨hveq, hrun2, hpeq, hclose⟩ := tryGroup2_eq_some h
        refine ⟨w1, w2, 3, Or.inl rfl, hrun1, by rw [hveq, hv0], hksp, hsep', hw2', ?_, ?_, ?_⟩
        · rw [hmeq]; exact hrun2
        · rw [hmeq]; exact hpeq
        · rw [hmeq]; exact hclose
    · cases h

theorem tryBody_of {l : List Char} {j n w1 w2 l2 : Nat}
    (hl2 : l2 = 3 ∨ l2 = 4)
    (h1 : runAt l j n isHexDigit)
    (hw1 : runAt l (j + n) w1 jsWs)
    (hsep : sepAt l (j + n + w1) = true)
    (hw2 : runAt l (j + n + w1 + 1) w2 jsWs)
    (h2 : runAt l (j + n + w1 + 1 + w2) l2 isHexDigit)
    (hclose : closingAt l (j + n + w1 + 1 + w2 + l2) = true) :
    (tryBody l j n).isSome = true := by
  unfold tryBody
  simp only [hexGroup_of_runAt h1]
  have hk : skipWs l (j + n) = j + n + w1 := by
    refine skipWs_eq hw1 ?_
    obtain ⟨c, hc, hcw⟩ := sepAt_not_ws hsep
    exact ⟨c, by rw [show j + n + w1 = j + n + w1 from rfl] at hc; exact hc, hcw⟩
  rw [hk, hsep, if_pos rfl]
  have hm : skipWs l (j + n + w1 + 1) = j + n + w1 + 1 + w2 := by
    refine skipWs_eq hw2 ?_
    have hl2pos : 0 < l2 := by rcases hl2 with h | h <;> omega
    obtain ⟨c, hc, hhex⟩ := runAt_head h2 hl2pos
    exact ⟨c, hc, hexDigit_not_ws hhex⟩
  rw [hm]
  rw [orElse_isSome]
  rcases hl2 with h3 | h4
  · subst h3
    rw [tryGroup2_of_runAt _ h2 hclose]
    simp
  · subst h4
    rw [tryGroup2_of_runAt _ h2 hclose]
    simp

theorem body_eq_some {l : List Char} {j v p : Nat} (h : body l j = some (v, p)) :
    BodyValAt l j v p := by
  unfold body at h
  rw [Option.orElse_eq_some'] at h
  rcases h with h | ⟨_, h⟩
  · obtain ⟨w1, w2, l2, hl2, h1, hv, hw1, hsep, hw2, h2, hp, hclose⟩ := tryBody_eq_some h
    exact ⟨4, w1, w2, l2, Or.inr rfl, hl2, h1, hv, hw1, hsep, hw2, h2, hp, hclose⟩
  · obtain ⟨w1, w2, l2, hl2, h1, hv, hw1, hsep, hw2, h2, hp, hclose⟩ := tryBody_eq_some h
    exact ⟨3, w1, w2, l2, Or.inl rfl, hl2, h1, hv, hw1, hsep, hw2, h2, hp, hclose⟩

theorem body_of {l : List Char} {j v p : Nat} (h : BodyValAt l j v p) :
    (body l j).isSome = true := by
  obtain ⟨l1, w1, w2, l2, hl1, hl2, h1, hv, hw1, hsep, hw2, h2, hp, hclose⟩ := h
  unfold body
  rw [orElse_isSome]
  rcases hl1 with h3 | h4
  · subst h3
    rw [tryBody_of hl2 h1 hw1 hsep hw2 h2 hclose]
    simp
  · subst h4
    rw [tryBody_of hl2 h1 hw1 hsep hw2 h2 hclose]
    simp

theorem matchAt_eq_some {l : List Char} {i v p : Nat} (h : matchAt l i = some (v, p)) :
    OccursValAt l i v p := by
  unfold matchAt at h
  rw [Option.orElse_eq_some'] at h
  rcases h with h | ⟨_, h⟩
  · cases hg : l.get? i with
    | none => rw [hg] at h; cases h
    | some c =>
      simp only [hg] at h
      split at h
      · rename_i hc
        simp only [Bool.or_eq_true, beq_iff_eq] at hc
        exact Or.inl ⟨c, hg, hc, body_eq_some h⟩
      · cases h
  · split at h
    · rename_i hb
      exact Or.inr ⟨hb, body_eq_some h⟩
    · cases h

theorem matchAt_of {l : List Char} {i v p : Nat} (h : OccursValAt l i v p) :
    (matchAt l i).isSome = true := by
  unfold matchAt
  rw [orElse_isSome]
  rcases h with ⟨c, hc, hcor, hbody⟩ | ⟨hb, hbody⟩
  · simp only [hc]
    have hcond : (c == '(' || c == '[') = true := by
      rcases hcor with h | h <;> subst h <;> rfl
    rw [hcond, if_pos rfl, body_of hbody]
    simp
  · rw [hb, if_pos rfl, body_of hbody]
    simp

theorem extract_eq_some {l : List Char} {v p : Nat}
    (h : extractVendorProduct l = some (v, p)) : ∃ i, OccursValAt l i v p := by
  obtain ⟨i, _, hmi⟩ := List.exists_of_findSome?_eq_some h
  exact ⟨i, matchAt_eq_some hmi⟩

theorem extract_isSome_of {l : List Char} {i : Nat} (h : OccursAt l i) :
    (extractVendorProduct l).isSome = true := by
  obtain ⟨v, p, hocc⟩ := h
  have hmi : (matchAt l i).isSome = true := matchAt_of hocc
  have hle : i ≤ l.length := by
    rcases hocc with ⟨c, hc, _, _⟩ | ⟨_, hbody⟩
    · obtain ⟨hlt, _⟩ := List.get?_eq_some.mp hc
      omega
    · obtain ⟨l1, w1, w2, l2, hl1, _, h1, _⟩ := hbody
      have := runAt_le_length h1 (by rcases hl1 with h | h <;> omega)
      omega
  cases hext : extractVendorProduct l with
  | some q => simp
  | none =>
    exfalso
    unfold extractVendorProduct at hext
    rw [List.findSome?_eq_none_iff] at hext
    have := hext i (List.mem_range.mpr (by omega))
    rw [this] at hmi
    cases hmi

/-! ## Claim theorems -/

/-- C1: the merge step processes the OS-native labels in source order and,
per label, skips on an already-registered lower-cased trimmed name, else
skips on an already-registered nonzero vendor:product pair key, else appends
a synthesized CameraDevice (correlator ids or 0/0, address 0), registering
its name and key — i.e. it coincides with the step-by-step description
`mergeSpec`; and on the worked example the result is exactly two entries:
"Cam A" not duplicated, "Cam B" appended with vendor `0x0fd9`, product
`0x0078`. -/
theorem merge_follows_spec_and_example :
    (∀ (A : List CameraDevice) (B : List String),
      mergeWithMediaDevices A B = mergeSpec A B) ∧
    mergeWithMediaDevices
      [⟨"Cam A", 0x46d, 0x82d, 66, toHex 0x46d, toHex 0x82d⟩]
      (["Cam A", "Cam B (0fd9:0078)"]) =
      [⟨"Cam A", 0x46d, 0x82d, 66, toHex 0x46d, toHex 0x82d⟩,
       ⟨"Cam B (0fd9:0078)", 0x0fd9, 0x0078, 0, "0x0fd9", "0x0078"⟩] := by
  constructor
  · intro A B
    unfold mergeWithMediaDevices mergeSpec
    exact foldl_mergeStep_cameras B A (initNames A) (initPairs A)
  · decide

/-- C2 counterexample: the de-duplication invariant does not hold for every
merged list — an authoritative list that itself repeats an entry passes
through the merge unchanged (here with `B = []`), and the merged list then
contains two entries sharing the same lower-cased name and the same nonzero
vendor:product pair. -/
theorem merge_dedup_fails_on_duplicated_authoritative_list :
    ¬ DedupInvariant
        (mergeWithMediaDevices
          [⟨"Cam X", 1, 1, 0, toHex 1, toHex 1⟩, ⟨"Cam X", 1, 1, 0, toHex 1, toHex 1⟩]
          ([] : List String)) := by
  decide

/-- C2 (amended): the merge step preserves the de-duplication invariant —
whenever the authoritative list contains no two entries sharing both the
same lower-cased name and the same nonzero vendor:product pair, neither
does the merged list, for every OS-native label list. -/
theorem merge_preserves_dedup_invariant (A : List CameraDevice) (B : List String)
    (hA : DedupInvariant A) : DedupInvariant (mergeWithMediaDevices A B) := by
  unfold mergeWithMediaDevices DedupInvariant
  refine (foldl_mergeStep_dedup B ⟨A, initNames A, initPairs A⟩ hA ?_).1
  intro c hc
  exact List.mem_map_of_mem _ hc

/-- C3 counterexample: the claim's search rule taken as stated — any
substring of two 3-4 digit hexadecimal groups separated by `:` or `x`,
enclosure merely optional — finds `"123:456"` inside `"x123:456"`, yet the
correlator returns no match on that label: the regex also requires the
occurrence to start with `(`, `[` or a word boundary (and end symmetrically),
and the leading `x` glues the digits to a word character. -/
theorem correlator_misses_plain_pair :
    hasPlainHexPair ("x123:456" : String).data = true ∧
    extractVendorProductFromLabel ("x123:456") = none := by
  exact ⟨by decide, by decide⟩

/-- C3 (amended): the correlator is a total function (never throws) that
returns a pair exactly when the label contains an occurrence of the bounded
pattern — `(`/`[` or a word boundary, then 3-4 hex digits, optional
whitespace, `:` or `x`, optional whitespace, 3-4 hex digits, then `)`/`]` or
a word boundary — and every returned pair consists of the base-16 values of
the two digit groups of such an occurrence.  On the spec's examples:
`"Generic Camera (1908:2311)"` yields `0x1908`/`0x2311`, `"Generic Camera"`
yields no match. -/
theorem correlator_bounded_pattern :
    (∀ label : String, ∀ v p : Nat,
      extractVendorProductFromLabel label = some (v, p) →
        ∃ i, OccursValAt label.data i v p) ∧
    (∀ label : String, (∃ i, OccursAt label.data i) →
      (extractVendorProductFromLabel label).isSome = true) ∧
    extractVendorProductFromLabel ("Generic Camera (1908:2311)") = some (0x1908, 0x2311) ∧
    extractVendorProductFromLabel ("Generic Camera") = none := by
  refine ⟨fun label v p h => extract_eq_some h, ?_, by decide, by decide⟩
  rintro label ⟨i, hi⟩
  exact extract_isSome_of hi

theorem merge_preserves_dedup_invariant_witness :
    DedupInvariant
      (mergeWithMediaDevices [⟨"Cam A", 0x46d, 0x82d, 66, toHex 0x46d, toHex 0x82d⟩]
        (["Cam A", "Cam B (0fd9:0078)"])) :=
  merge_preserves_dedup_invariant _ _ (by decide)

/-- C6: every CameraDevice produced by `listCameras` and every entry
synthesized by the merge step carries `vendorHex`/`productHex` equal to the
`toHex` rendering of its `vendor`/`product`; and that rendering is `0x`
followed by the lower-case hex digits zero-padded to length (at least, and
for 16-bit ids exactly) 4. -/
theorem hex_fields_consistent :
    (∀ devices : List RawDevice, ∀ c ∈ mapDevices devices,
        c.vendorHex = toHex c.vendor ∧ c.productHex = toHex c.product) ∧
    (∀ (A : List CameraDevice) (B : List String), ∀ c ∈ mergeWithMediaDevices A B,
        c ∈ A ∨ (c.vendorHex = toHex c.vendor ∧ c.productHex = toHex c.product)) ∧
    (∀ n : Nat,
        (toHex n).data = '0' :: 'x' :: padStart4 (natToHexChars n) ∧
        (padStart4 (natToHexChars n)).all isLowerHexDigit = true ∧
        4 ≤ (padStart4 (natToHexChars n)).length ∧
        (n < 65536 → (padStart4 (natToHexChars n)).length = 4)) := by
  refine ⟨fun devices c hc => ?_, fun A B c hc => ?_, fun n => ?_⟩
  · obtain ⟨d, _, rfl⟩ := List.mem_map.mp hc
    exact ⟨rfl, rfl⟩
  · rw [show mergeWithMediaDevices A B =
        A ++ acceptedEntries (initNames A) (initPairs A) B from
      foldl_mergeStep_cameras B A (initNames A) (initPairs A)] at hc
    rcases List.mem_append.mp hc with hc | hc
    · exact Or.inl hc
    · obtain ⟨label, parsed, rfl⟩ := mem_acceptedEntries B _ _ c hc
      exact Or.inr (synthCamera_consistent label parsed)
  · refine ⟨by simp [toHex, String.data_append], padStart4_all_lower (natToHexChars_all_lower n),
      padStart4_length_ge _, fun h => padStart4_length_eq (natToHexChars_length_le4 h)⟩

/-- C4: every error from the external USB library inside `listCameras` whose
message indicates access denial is re-raised with the fixed
permission/elevation guidance message, which does not contain the raw
underlying message; a not-found/no-device message is re-raised with the
fixed no-UVC-camera explanation; every other error (including non-`Error`
values) is re-thrown unchanged. -/
theorem listCameras_error_rewriting (e : JsError) :
    (e.isError = true → includesSub e.message accessToken →
      rewriteListError e = { isError := true, message := accessDeniedMessage } ∧
        includesSub accessDeniedMessage elevationGuidance ∧
        ¬ includesSub accessDeniedMessage e.message) ∧
    (e.isError = true → ¬ includesSub e.message accessToken →
        includesSub e.message notFoundToken →
      rewriteListError e = { isError := true, message := notFoundMessage } ∧
        includesSub notFoundMessage noCameraExplanation) ∧
    ((e.isError = true → ¬ includesSub e.message accessToken ∧ ¬ includesSub e.message notFoundToken) →
      rewriteListError e = e) := by
  refine ⟨fun he hacc => ⟨?_, by decide, ?_⟩, fun he hnacc hnf => ⟨?_, by decide⟩, fun hother => ?_⟩
  · simp [rewriteListError, he, hacc]
  · intro hcontra
    exact absurd (includesSub_trans hcontra hacc) (by decide)
  · simp [rewriteListError, he, hnacc, hnf]
  · cases he : e.isError with
    | false => simp [rewriteListError, he]
    | true =>
      obtain ⟨h1, h2⟩ := hother he
      simp [rewriteListError, h1, h2]

/-- C5: rendering any vendor/product integer with the adapter's hex renderer
(`0x` plus zero-padded base-16 digits) and parsing it back with `findCamera`'s
string normaliser (strip one `0x`, `parseInt(-, 16)`) recovers the integer
exactly. -/
theorem parseHex_toHex_roundtrip (v : Nat) :
    normalizeId (IdArg.str (toHex v)) = some ((v : Int)) := by
  show parseHexArg (toHex v) = some ((v : Int))
  unfold parseHexArg
  have hdata : (toHex v).data = '0' :: 'x' :: padStart4 (natToHexChars v) := by
    simp [toHex, String.data_append]
  rw [hdata, jsReplaceFirst_0x]
  rw [jsParseInt16_all_hex (padStart4_all_hex (natToHexChars_all_hex v))
    (by have := padStart4_length_ge (natToHexChars v); intro hc; simp [hc] at this)]
  rw [parseHexDigits_padStart4, parseHexDigits_natToHexChars]

/-- C8: a successful discovery with zero devices is a success (`ok []`, not
an error); on it `getFormattedList` returns exactly the fixed empty-state
sentence and `getCameraCount` returns `0`. -/
theorem empty_discovery_is_success :
    listCameras (Except.ok []) = Except.ok ([] : List CameraDevice) ∧
    (∀ e : JsError, listCameras (Except.ok []) ≠ Except.error e) ∧
    getFormattedList [] = "No UVC-compatible cameras found." ∧
    getCameraCount [] = 0 := by
  refine ⟨rfl, fun e h => ?_, rfl, rfl⟩
  simp [listCameras] at h

/-- C9 (code evaluated at the failing input): the CLI entry point ignores its
argument vector — `--json` included — and on an empty discovery prints the
human-readable empty-state sentence, not the JSON array `[]` that its caller
(`app/main.cjs`, which spawns it with `--json` and `JSON.parse`s the output)
expects. -/
theorem cli_ignores_json_flag :
    cliMain (["--json"]) (Except.ok []) = ("No UVC-compatible cameras found.", 0) ∧
    (∀ argv argv2 : List String, ∀ outcome, cliMain argv outcome = cliMain argv2 outcome) ∧
    ("No UVC-compatible cameras found." : String) ≠ "[]" := by
  refine ⟨rfl, fun argv argv2 outcome => ?_, by decide⟩
  unfold cliMain
  cases listCameras outcome <;> rfl

/-- C10: a string argument of `findCamera` is parsed as base 16 (after
stripping one optional `0x`), so `"1133"` means `0x1133 = 4403`:
`findCamera` behaves identically on `"1133"` and on the number `0x1133`,
and not, in general, as on the decimal number `1133`. -/
theorem findCamera_string_arg_is_hex :
    (∀ cameras : List CameraDevice, ∀ p : Nat,
      findCamera cameras (IdArg.str ("1133")) (IdArg.num p) =
        findCamera cameras (IdArg.num 0x1133) (IdArg.num p)) ∧
    normalizeId (IdArg.str ("1133")) = some ((4403 : Int)) ∧
    ¬ (∀ cameras : List CameraDevice, ∀ p : Nat,
        findCamera cameras (IdArg.str ("1133")) (IdArg.num p) =
          findCamera cameras (IdArg.num 1133) (IdArg.num p)) := by
  have hnorm : normalizeId (IdArg.str ("1133")) = normalizeId (IdArg.num 0x1133) := by decide
  refine ⟨fun cameras p => ?_, by decide, fun hall => ?_⟩
  · unfold findCamera
    rw [hnorm]
  · have h := hall [⟨"demo", 4403, 0, 0, "", ""⟩] 0
    revert h
    decide

/-- C7: the `loadCameras` re-entrancy guard.  In every state reachable from
startup by refresh requests and completions: at most one discovery call is
outstanding; none is outstanding unless the state is loading; and while
loading, a further refresh request is a strict no-op (the state — flag and
outstanding call alike — is unchanged: nothing is queued, nothing
cancelled, no second discovery call is issued). -/
theorem loadCameras_guard (events : List UIEvent) :
    (runUI events).outstanding ≤ 1 ∧
    ((runUI events).isLoading = false → (runUI events).outstanding = 0) ∧
    ((runUI events).isLoading = true →
      uiStep (runUI events) UIEvent.request = runUI events) := by
  have inv : ∀ (evs : List UIEvent) (s : UIState),
      s.outstanding = (if s.isLoading then 1 else 0) →
      (evs.foldl uiStep s).outstanding = (if (evs.foldl uiStep s).isLoading then 1 else 0) := by
    intro evs
    induction evs with
    | nil => intro s h; exact h
    | cons e rest ih =>
      intro s h
      refine ih (uiStep s e) ?_
      cases e with
      | request =>
        cases hl : s.isLoading with
        | false => simp [uiStep, hl] at h ⊢; omega
        | true => simpa [uiStep, hl] using h
      | complete =>
        cases hl : s.isLoading with
        | false => simp [uiStep, hl] at h ⊢; simp [h, hl]
        | true => simp [uiStep, hl] at h ⊢; simp [h, hl]
  have h := inv events { isLoading := false, outstanding := 0 } (by rfl)
  refine ⟨?_, ?_, ?_⟩
  · rw [show runUI events = events.foldl uiStep { isLoading := false, outstanding := 0 } from rfl]
    rw [h]
    split <;> omega
  · intro hl
    rw [show runUI events = events.foldl uiStep { isLoading := false, outstanding := 0 } from rfl,
      h]
    simp [show (events.foldl uiStep { isLoading := false, outstanding := 0 }).isLoading = false from hl]
  · intro hl
    simp [uiStep, hl]

end Uvcc
